import Mathlib

/-!
Shallow embedding of the render/diff core of the kobold UI framework
(crates/kobold): the list reconciliation engine (unbounded and bounded
variants), the branching unions, the diff/memo layer, version-counted
diffing and the runtime's take/restore update discipline with signals.

Host-surface operations (node append, unmount, replace) are opaque foreign
calls in the source; the embedding records them as counters or as the
product values they act on, which is everything the specification's claims
observe about them.
-/

namespace Kobold

section ListEngine

variable {V : Type} {P : Type}

/-- The positional walk shared by all list update paths: mirrors the
`while let Some(old) = self.list.get_mut(updated)` loop of
`ListProduct::update` (src/crates/kobold/src/list/unbounded.rs, lines 42-49).
For each position where both a stored product and a fresh view exist,
`new.update(old)` is applied in place; stored products beyond the fresh
views are left untouched, fresh views beyond the stored products are left
for the extend step. -/
def updateProducts (upd : V → P → P) : List P → List V → List P
  | ps, [] => ps
  | [], _ => []
  | p :: ps, v :: vs => upd v p :: updateProducts upd ps vs

/-- Host-surface side effects observed during one list-engine operation:
`builds` counts `view.build()` calls, `unmounts` counts `p.unmount()` calls,
`remounts` counts the `fragment.append(p.js())` calls of the `mount` path
that re-attach retained products (appends of freshly built products are
accounted for by `builds`). -/
structure Stats where
  builds : Nat
  unmounts : Nat
  remounts : Nat
  deriving Repr, DecidableEq

/-- `ListProduct` (src/crates/kobold/src/list/unbounded.rs, lines 13-17): the
stored item products plus the count of those currently attached to the host
fragment. The `FragmentBuilder` handle carries no observable state beyond
the append/unmount events recorded in `Stats`. -/
structure ListProduct (P : Type) where
  list : List P
  mounted : Nat
  deriving Repr, DecidableEq

/-- `ListProduct::extend` (unbounded.rs, lines 62-76): build every remaining
view, append its node to the fragment, push it into storage, then record
`mounted = list.len()`. -/
def ListProduct.extendWith (bld : V → P) (p : ListProduct P) (vs : List V) :
    ListProduct P × Stats :=
  ({ list := p.list ++ vs.map bld, mounted := (p.list ++ vs.map bld).length },
   { builds := vs.length, unmounts := 0, remounts := 0 })

/-- `ListProduct::build` (unbounded.rs, lines 20-33): start empty, extend. -/
def ListProduct.buildFrom (bld : V → P) (vs : List V) : ListProduct P :=
  (ListProduct.extendWith bld { list := [], mounted := 0 } vs).1

/-- `ListProduct::unmount` (unbounded.rs, lines 78-85): detach the products
at positions `from..mounted` from the host surface, record `mounted = from`.
The products themselves stay in storage. -/
def ListProduct.unmountFrom (p : ListProduct P) (start : Nat) :
    ListProduct P × Stats :=
  ({ p with mounted := start },
   { builds := 0, unmounts := p.mounted - start, remounts := 0 })

/-- `ListProduct::mount` (unbounded.rs, lines 87-94): re-append the retained
products at positions `mounted..to` to the host fragment, record
`mounted = to`. -/
def ListProduct.mountTo (p : ListProduct P) (upto : Nat) :
    ListProduct P × Stats :=
  ({ p with mounted := upto },
   { builds := 0, unmounts := 0, remounts := upto - p.mounted })

/-- `ListProduct::update` (unbounded.rs, lines 35-60): walk the stored
products and the fresh views in lockstep, then either unmount the mounted
surplus, or re-mount into the retained range and, when the walk consumed
the whole storage, extend with the remaining views. -/
def ListProduct.update (bld : V → P) (upd : V → P → P)
    (p : ListProduct P) (vs : List V) : ListProduct P × Stats :=
  let updated := min p.list.length vs.length
  let p1 : ListProduct P := { p with list := updateProducts upd p.list vs }
  if updated < p.mounted then
    p1.unmountFrom updated
  else
    let m := p1.mountTo updated
    if updated = m.1.list.length then
      let e := m.1.extendWith bld (vs.drop p.list.length)
      (e.1, { builds := e.2.builds, unmounts := 0, remounts := m.2.remounts })
    else
      m

/-- `List::update` (src/crates/kobold/src/list.rs, lines 90-133), the
`Vec<Box<P>>`-backed variant: same positional walk; afterwards it either
unmounts the surplus and returns, or unconditionally extends with whatever
is left of the iterator (an empty remainder when the iterator was already
exhausted) and appends every product in `mounted..consumed`. -/
def listVecUpdate (bld : V → P) (upd : V → P → P)
    (p : ListProduct P) (vs : List V) : ListProduct P × Stats :=
  let consumed := min p.list.length vs.length
  let list1 := updateProducts upd p.list vs
  if consumed < p.mounted then
    ({ list := list1, mounted := consumed },
     { builds := 0, unmounts := p.mounted - consumed, remounts := 0 })
  else
    let rest := vs.drop p.list.length
    ({ list := list1 ++ rest.map bld, mounted := consumed + rest.length },
     { builds := rest.length, unmounts := 0,
       remounts := consumed - p.mounted })

/-- `BoundedVec` (src/crates/kobold/src/list/bounded.rs, lines 119-157): a
fixed array of `N` slots of which the first `len` are initialized. `data`
models exactly the initialized prefix `data[..len]`, so `len = data.length`;
the uninitialized tail slots carry no observable value. -/
structure BoundedVec (P : Type) (N : Nat) where
  data : List P
  deriving Repr, DecidableEq

/-- `BoundedVec::new` (bounded.rs, lines 138-143). -/
def BoundedVec.new {N : Nat} : BoundedVec P N := ⟨[]⟩

/-- `BoundedVec::push` (bounded.rs, lines 125-134): once `len` has reached
`N` nothing is written and `len` is not incremented; the returned flag
reports whether the item was stored. -/
def BoundedVec.push {N : Nat} (v : BoundedVec P N) (item : P) :
    BoundedVec P N × Bool :=
  if N ≤ v.data.length then (v, false)
  else (⟨v.data ++ [item]⟩, true)

/-- `BoundedVec::len` (bounded.rs, lines 145-147). -/
def BoundedVec.len {N : Nat} (v : BoundedVec P N) : Nat := v.data.length

/-- `BoundedVec::extend` (bounded.rs, lines 149-156): push every item,
silently dropping the result flag. -/
def BoundedVec.extendWith {N : Nat} (v : BoundedVec P N) (items : List P) :
    BoundedVec P N :=
  items.foldl (fun acc it => (acc.push it).1) v

/-- `BoundedVec::deref` (bounded.rs, lines 159-167): the slice of
initialized elements `data[..len]`. -/
def BoundedVec.deref {N : Nat} (v : BoundedVec P N) : List P := v.data

/-- `BoundedProduct` (bounded.rs, lines 14-18). -/
structure BoundedProduct (P : Type) (N : Nat) where
  list : BoundedVec P N
  mounted : Nat
  deriving Repr, DecidableEq

/-- `BoundedProduct::extend` (bounded.rs, lines 63-77): every remaining view
is built and its node appended to the fragment by the mapping closure, then
pushed into storage (pushes beyond capacity silently drop the product);
`mounted = list.len()` afterwards. -/
def BoundedProduct.extendWith {N : Nat} (bld : V → P)
    (p : BoundedProduct P N) (vs : List V) : BoundedProduct P N × Stats :=
  let l := p.list.extendWith (vs.map bld)
  ({ list := l, mounted := l.len },
   { builds := vs.length, unmounts := 0, remounts := 0 })

/-- `BoundedProduct::build` (bounded.rs, lines 21-34). -/
def BoundedProduct.buildFrom {N : Nat} (bld : V → P) (vs : List V) :
    BoundedProduct P N :=
  (BoundedProduct.extendWith bld ⟨BoundedVec.new, 0⟩ vs).1

/-- `BoundedProduct::update` (bounded.rs, lines 36-61): identical control
flow to the unbounded variant, over the bounded storage. -/
def BoundedProduct.update {N : Nat} (bld : V → P) (upd : V → P → P)
    (p : BoundedProduct P N) (vs : List V) : BoundedProduct P N × Stats :=
  let updated := min p.list.len vs.length
  let p1 : BoundedProduct P N :=
    { p with list := ⟨updateProducts upd p.list.data vs⟩ }
  if updated < p.mounted then
    ({ p1 with mounted := updated },
     { builds := 0, unmounts := p.mounted - updated, remounts := 0 })
  else
    if updated = p1.list.len then
      let e := BoundedProduct.extendWith bld { p1 with mounted := updated }
        (vs.drop p.list.len)
      (e.1, { builds := e.2.builds, unmounts := 0,
              remounts := updated - p.mounted })
    else
      ({ p1 with mounted := updated },
       { builds := 0, unmounts := 0, remounts := updated - p.mounted })

end ListEngine

section Branching

/-- The `Branch2` union (src/crates/kobold/src/branching.rs, lines 106-190):
a closed tagged union of two view (or product) types. `Branch3` through
`Branch9` are generated by the same macro body and differ only in arity. -/
inductive Branch2 (A B : Type) where
  | A : A → Branch2 A B
  | B : B → Branch2 A B
  deriving Repr, DecidableEq

variable {VA VB PA PB : Type}

/-- `Branch2::build` (branching.rs, lines 123-129). -/
def branch2Build (bA : VA → PA) (bB : VB → PB) :
    Branch2 VA VB → Branch2 PA PB
  | .A v => .A (bA v)
  | .B v => .B (bB v)

/-- `Branch2::update` (branching.rs, lines 140-152): on a matching variant
delegate to the inner view's update; on a mismatch build a new product from
the new view, swap it into place and splice its host node over the old one
with `replace_with`. The returned number counts the `replace_with` host
calls (0 or 1). -/
def branch2Update (bA : VA → PA) (uA : VA → PA → PA)
    (bB : VB → PB) (uB : VB → PB → PB) :
    Branch2 VA VB → Branch2 PA PB → Branch2 PA PB × Nat
  | .A v, .A p => (.A (uA v p), 0)
  | .B v, .B p => (.B (uB v p), 0)
  | .A v, .B _ => (.A (bA v), 1)
  | .B v, .A _ => (.B (bB v), 1)

variable {V P : Type}

/-- `EmptyNode` (branching.rs, line 199) holds one empty host node created
by `empty_node()`; it carries no observable data. -/
def EmptyNode : Type := Unit

/-- `Option::<T>::build` (branching.rs, lines 225-230): `Some` builds the
inner view, `None` mounts one empty node. -/
def optionBuild (bld : V → P) : Option V → Branch2 P EmptyNode
  | some v => .A (bld v)
  | none => .B ()

/-- `Option::<T>::update` (branching.rs, lines 239-251): same shape as
`Branch2::update` with the `None` arm holding an empty node; the returned
number counts `replace_with` host calls. -/
def optionUpdate (bld : V → P) (upd : V → P → P) :
    Option V → Branch2 P EmptyNode → Branch2 P EmptyNode × Nat
  | some v, .A p => (.A (upd v p), 0)
  | none, .B e => (.B e, 0)
  | v, _ => (optionBuild bld v, 1)

end Branching

section DiffMemo

/-- The `Diff` impl body generated by `impl_diff!`
(src/crates/kobold/src/diff.rs, lines 206-230) for the primitive `Copy`
types (`bool`, the integer types, `usize`/`isize`): the memo is the last
value, `diff` reports a change iff the new value differs and then replaces
the memo with it. -/
def primDiff {α : Type} [DecidableEq α] (new : α) (memo : α) : Bool × α :=
  if new ≠ memo then (true, new) else (false, memo)

/-- The `Diff` impl body generated by `impl_diff_str!`
(src/crates/kobold/src/diff.rs, lines 183-204) for `&str`, `&String` and
`&Box<str>`: the memo is an owned copy of the last string contents, `diff`
compares contents and on a change replaces the memo with a fresh owned copy
of the new contents. Lean `String` equality is exactly content equality. -/
def strDiff (new : String) (memo : String) : Bool × String :=
  if new ≠ memo then (true, new) else (false, memo)

/-- A model of an `f32`/`f64` value as far as the `self != *memo`
comparison of `impl_diff!` consults it: a value is either a NaN or a
numeric value (rationals stand in for the representable numbers; the
signed-zero and payload distinctions play no part in the claims). -/
inductive Fl where
  | nan
  | num (q : ℚ)
  deriving Repr, DecidableEq

/-- IEEE `==` on floats: false whenever either operand is NaN, numeric
comparison otherwise. Rust's `!=` on `f32`/`f64` is its negation. -/
def Fl.ieeeEq : Fl → Fl → Bool
  | .nan, _ => false
  | _, .nan => false
  | .num a, .num b => a == b

/-- The `Diff` impl body generated by `impl_diff!`
(src/crates/kobold/src/diff.rs, lines 206-230) at its `f32` and `f64`
instantiations: the same text as `primDiff`, but `self != *memo` is IEEE
comparison — in particular `NaN != NaN` holds, so a NaN is reported as
changed on every call. -/
def floatDiff (new : Fl) (memo : Fl) : Bool × Fl :=
  if !(Fl.ieeeEq new memo) then (true, new) else (false, memo)

end DiffMemo

section VerDiff

/-- `usize` on the `wasm32-unknown-unknown` target kobold compiles for is
32 bits wide; `4294967296 = 2 ^ 32` is its wrap-around modulus. Increments
of the version counter wrap at this width (release-build semantics of
`+= 1`). -/
def W32 : Nat := 4294967296

/-- `Ver<T>` (src/crates/kobold/src/diff/ver.rs, lines 12-15): a value
together with a version counter. `noise` models the first machine word of
the stored value's representation read by `VerValue::noise` (ver.rs, lines
42-49, a raw-memory observation with no Lean counterpart, hence an explicit
field that mutations refresh); it is a 32-bit word, or 0 when the layout
check fails. -/
structure Ver (T : Type) where
  val : T
  ver : Nat
  noise : Nat
  deriving Repr, DecidableEq

/-- `Ver::new` (ver.rs, lines 17-28): the version counter starts at 0. -/
def Ver.make {T : Type} (val : T) (noise : Nat) : Ver T :=
  ⟨val, 0, noise % W32⟩

/-- `Ver::deref_mut` (ver.rs, lines 93-99): every mutable access increments
the version counter (wrapping at the usize width). `f` is what the caller
does through the returned mutable reference, `n` the resulting noise word. -/
def Ver.derefMut {T : Type} (f : T → T) (n : Nat) (v : Ver T) : Ver T :=
  { val := f v.val, ver := (v.ver + 1) % W32, noise := n % W32 }

/-- `<Ver<T> as Write>::write_str` (ver.rs, lines 157-165): also increments
the version counter before writing. -/
def Ver.writeStr (s : String) (n : Nat) (v : Ver String) : Ver String :=
  { val := v.val ++ s, ver := (v.ver + 1) % W32, noise := n % W32 }

/-- `into_memo` (ver.rs, lines 69-71):
`(self.ver as u64).wrapping_shl(32) | self.inner.noise()`. With `ver` and
`noise` both 32-bit words the two halves occupy disjoint bit ranges, so the
bitwise or is addition. -/
def Ver.intoMemo {T : Type} (v : Ver T) : Nat :=
  (v.ver % W32) * W32 + v.noise % W32

/-- `diff` for `&Ver<T>` (ver.rs, lines 73-82): compare the freshly computed
memo with the stored one, replace on mismatch. -/
def Ver.diff {T : Type} (v : Ver T) (memo : Nat) : Bool × Nat :=
  if memo ≠ v.intoMemo then (true, v.intoMemo) else (false, memo)

/-- A sequence of mutable accesses performed one after the other, each given
by the function applied through the reference and the resulting noise
word. -/
def Ver.mutate {T : Type} (ms : List ((T → T) × Nat)) (v : Ver T) : Ver T :=
  ms.foldl (fun acc m => Ver.derefMut m.1 m.2 acc) v

end VerDiff

section RuntimeSignal

/-- `Then` (crate `runtime` module): the verdict of an event callback or
signal mutator. Modelled from the spec: the `runtime` module defining it in
this revision is not among the source files (src/crates/kobold/src/state/hook.rs
and src/crates/kobold/src/event.rs only use it); per the spec a callback
returns a should-render verdict deciding whether the runtime re-renders. -/
inductive Then where
  | Stop
  | Render
  deriving Repr, DecidableEq

/-- The observable state of the thread-confined runtime and of one stateful
hook: `alive` models `drop_flag.strong_count() == 1` (the owning Hook's
`Rc` still in place, src/crates/kobold/src/state/hook.rs, lines 24-30 and
56), `state` the hook's state cell, `slotFull` whether the `RUNTIME`
thread-local slot currently holds the runtime
(src/crates/kobold/src/runtime.rs, line 25), `renders` how many times the
runtime's stored render/update closure has been invoked, and `cyclical` how
many times the cyclical-update debug assertion has fired. -/
structure Rt (S : Type) where
  alive : Bool
  state : S
  slotFull : Bool
  renders : Nat
  cyclical : Nat
  deriving Repr, DecidableEq

/-- `fn update` (src/crates/kobold/src/runtime.rs, lines 54-63): take the
runtime out of the thread-local slot; if it was there, invoke its stored
update closure (counted by `renders`, behavior `cl`) and put it back; if
the slot was empty, do nothing at all. -/
def updateRt {S : Type} (cl : Rt S → Rt S) (s : Rt S) : Rt S :=
  if s.slotFull then
    { cl { s with slotFull := false, renders := s.renders + 1 }
        with slotFull := true }
  else
    s

/-- Modelled from the spec: `runtime::lock_update`, called by
`Signal::update` (src/crates/kobold/src/state/hook.rs, line 59) and by
bound listeners (hook.rs, line 184), is not among the source files of this
revision. Per the spec it "takes the runtime slot, mutates, and releases
it", and "any attempt to mutate while it is absent (detected by the slot
being empty) is rejected (debug-asserted as a logic error, cyclical update
detected)" — the mutator is not invoked in that case, recorded by the
`cyclical` counter. A `Render` verdict invokes the runtime's update closure
before the slot is restored, counted by `renders`. -/
def lockUpdate {S : Type} (mu : Rt S → Rt S × Then) (s : Rt S) : Rt S :=
  if s.slotFull then
    let r := mu { s with slotFull := false }
    let s2 := if r.2 = Then.Render then
        { r.1 with renders := r.1.renders + 1 }
      else r.1
    { s2 with slotFull := true }
  else
    { s with cyclical := s.cyclical + 1 }

/-- The closure `Signal::update` passes to `lock_update`: run the mutator
on the state behind the hook, forward its verdict. -/
def liftMut {S : Type} (f : S → S × Then) : Rt S → Rt S × Then :=
  fun rt => ({ rt with state := (f rt.state).1 }, (f rt.state).2)

/-- `Signal::update` (src/crates/kobold/src/state/hook.rs, lines 51-61):
check the liveness flag (`drop_flag.strong_count() == 1`) before
dereferencing; when it fails, nothing at all happens — the mutator is not
invoked. Otherwise run the mutator under `lock_update`. -/
def Signal.update {S : Type} (f : S → S × Then) (a : Rt S) : Rt S :=
  if a.alive then lockUpdate (liftMut f) a else a

/-- `Signal::update_silent` (hook.rs, lines 64-71): same liveness check,
then mutate the state directly, never touching the runtime. -/
def Signal.updateSilent {S : Type} (f : S → S) (a : Rt S) : Rt S :=
  if a.alive then { a with state := f a.state } else a

/-- `Signal::set` (hook.rs, lines 74-76): `self.update(move |s| *s = val)`;
a mutator returning `()` always renders (the doc example at hook.rs, lines
36-39: "increment count and trigger a render"). -/
def Signal.set {S : Type} (val : S) (a : Rt S) : Rt S :=
  Signal.update (fun _ => (val, Then.Render)) a

end RuntimeSignal

section ListFacts

variable {V : Type} {P : Type}

theorem length_updateProducts (upd : V → P → P) :
    ∀ (ps : List P) (vs : List V),
      (updateProducts upd ps vs).length = ps.length := by
  intro ps
  induction ps with
  | nil => intro vs; cases vs <;> rfl
  | cons p ps ih =>
    intro vs
    cases vs with
    | nil => rfl
    | cons v vs => simp [updateProducts, ih]

theorem updateProducts_getElem (upd : V → P → P) :
    ∀ (ps : List P) (vs : List V) (i : Nat) (v : V) (q : P),
      vs[i]? = some v → ps[i]? = some q →
      (updateProducts upd ps vs)[i]? = some (upd v q) := by
  intro ps
  induction ps with
  | nil => intro vs i v q _ hq; simp at hq
  | cons p ps ih =>
    intro vs i v q hv hq
    cases vs with
    | nil => simp at hv
    | cons w vs =>
      cases i with
      | zero =>
        simp at hv hq
        simp [updateProducts, hv, hq]
      | succ i =>
        simp at hv hq
        simpa [updateProducts] using ih vs i v q hv hq

theorem updateProducts_getElem_ge (upd : V → P → P) :
    ∀ (ps : List P) (vs : List V) (i : Nat), vs.length ≤ i →
      (updateProducts upd ps vs)[i]? = ps[i]? := by
  intro ps
  induction ps with
  | nil => intro vs i _; cases vs <;> rfl
  | cons p ps ih =>
    intro vs i h
    cases vs with
    | nil => rfl
    | cons w vs =>
      cases i with
      | zero => simp at h
      | succ i =>
        simp at h
        simpa [updateProducts] using ih vs i h

theorem ListProduct.update_shrink (bld : V → P) (upd : V → P → P)
    (p : ListProduct P) (vs : List V)
    (hm : p.mounted ≤ p.list.length) (h : vs.length < p.mounted) :
    p.update bld upd vs =
      ({ list := updateProducts upd p.list vs, mounted := vs.length },
       { builds := 0, unmounts := p.mounted - vs.length, remounts := 0 }) := by
  have hmin : min p.list.length vs.length = vs.length := by omega
  simp [ListProduct.update, hmin, h, ListProduct.unmountFrom]

theorem ListProduct.update_mid (bld : V → P) (upd : V → P → P)
    (p : ListProduct P) (vs : List V)
    (h1 : p.mounted ≤ vs.length) (h2 : vs.length < p.list.length) :
    p.update bld upd vs =
      ({ list := updateProducts upd p.list vs, mounted := vs.length },
       { builds := 0, unmounts := 0, remounts := vs.length - p.mounted }) := by
  have hmin : min p.list.length vs.length = vs.length := by omega
  have hlen := length_updateProducts upd p.list vs
  have hcond : ¬ vs.length < p.mounted := by omega
  have hne : ¬ vs.length = (updateProducts upd p.list vs).length := by omega
  simp [ListProduct.update, hmin, hcond, ListProduct.mountTo, hne]

theorem ListProduct.update_big (bld : V → P) (upd : V → P → P)
    (p : ListProduct P) (vs : List V)
    (hm : p.mounted ≤ p.list.length) (h : p.list.length ≤ vs.length) :
    p.update bld upd vs =
      ({ list := updateProducts upd p.list vs ++ (vs.drop p.list.length).map bld,
         mounted := vs.length },
       { builds := vs.length - p.list.length, unmounts := 0,
         remounts := p.list.length - p.mounted }) := by
  have hmin : min p.list.length vs.length = p.list.length := by omega
  have hlen := length_updateProducts upd p.list vs
  have hcond : ¬ p.list.length < p.mounted := by omega
  simp [ListProduct.update, hmin, hcond, ListProduct.mountTo,
    ListProduct.extendWith, hlen]
  omega

theorem listVecUpdate_eq (bld : V → P) (upd : V → P → P)
    (p : ListProduct P) (vs : List V) (hm : p.mounted ≤ p.list.length) :
    listVecUpdate bld upd p vs = p.update bld upd vs := by
  have hlen := length_updateProducts upd p.list vs
  by_cases hs : vs.length < p.mounted
  · rw [ListProduct.update_shrink bld upd p vs hm hs]
    simp only [listVecUpdate]
    rw [if_pos (by omega)]
    simp
    omega
  · by_cases h2 : p.list.length ≤ vs.length
    · rw [ListProduct.update_big bld upd p vs hm h2]
      simp only [listVecUpdate]
      rw [if_neg (by omega)]
      simp
      omega
    · rw [ListProduct.update_mid bld upd p vs (by omega) (by omega)]
      simp only [listVecUpdate]
      rw [if_neg (by omega)]
      have hdrop : vs.drop p.list.length = [] :=
        List.drop_eq_nil_of_le (by omega)
      simp [hdrop]
      omega

theorem BoundedVec.extendWith_data {N : Nat} (v : BoundedVec P N)
    (items : List P) :
    (v.extendWith items).data = v.data ++ items.take (N - v.data.length) := by
  induction items generalizing v with
  | nil => simp [BoundedVec.extendWith]
  | cons it items ih =>
    have step : v.extendWith (it :: items) = (v.push it).1.extendWith items :=
      rfl
    by_cases h : N ≤ v.data.length
    · have hz : N - v.data.length = 0 := by omega
      rw [step]
      simp [BoundedVec.push, h, ih, hz]
    · have hpos : N - v.data.length = (N - (v.data.length + 1)) + 1 := by
        omega
      rw [step]
      simp [BoundedVec.push, h, ih, hpos]

theorem BoundedVec.len_extendWith {N : Nat} (v : BoundedVec P N)
    (items : List P) (hv : v.data.length ≤ N) :
    (v.extendWith items).len = min (v.data.length + items.length) N := by
  simp [BoundedVec.len, BoundedVec.extendWith_data]
  omega

theorem BoundedProduct.boundedUpdate_shrink {N : Nat} (bld : V → P)
    (upd : V → P → P) (p : BoundedProduct P N) (vs : List V)
    (hm : p.mounted ≤ p.list.len) (h : vs.length < p.mounted) :
    p.update bld upd vs =
      ({ list := ⟨updateProducts upd p.list.data vs⟩, mounted := vs.length },
       { builds := 0, unmounts := p.mounted - vs.length, remounts := 0 }) := by
  have hmin : min p.list.len vs.length = vs.length := by omega
  simp [BoundedProduct.update, hmin, h]

theorem BoundedProduct.boundedUpdate_mid {N : Nat} (bld : V → P)
    (upd : V → P → P) (p : BoundedProduct P N) (vs : List V)
    (h1 : p.mounted ≤ vs.length) (h2 : vs.length < p.list.len) :
    p.update bld upd vs =
      ({ list := ⟨updateProducts upd p.list.data vs⟩, mounted := vs.length },
       { builds := 0, unmounts := 0, remounts := vs.length - p.mounted }) := by
  have hlen := length_updateProducts upd p.list.data vs
  simp only [BoundedVec.len] at h2 ⊢
  simp only [BoundedProduct.update, BoundedVec.len]
  rw [if_neg (by omega), if_neg (by omega)]
  have hmin : min p.list.data.length vs.length = vs.length := by omega
  rw [hmin]

theorem BoundedProduct.boundedUpdate_big {N : Nat} (bld : V → P)
    (upd : V → P → P) (p : BoundedProduct P N) (vs : List V)
    (hm : p.mounted ≤ p.list.len) (hN : p.list.len ≤ N)
    (h : p.list.len ≤ vs.length) :
    p.update bld upd vs =
      ({ list := ⟨updateProducts upd p.list.data vs ++
            ((vs.drop p.list.len).map bld).take (N - p.list.len)⟩,
         mounted := min vs.length N },
       { builds := vs.length - p.list.len, unmounts := 0,
         remounts := p.list.len - p.mounted }) := by
  have hlen := length_updateProducts upd p.list.data vs
  simp only [BoundedVec.len] at hm hN h ⊢
  simp only [BoundedProduct.update, BoundedVec.len, BoundedProduct.extendWith]
  rw [if_neg (by omega), if_pos (by omega)]
  have e1 : (⟨updateProducts upd p.list.data vs⟩ :
        BoundedVec P N).extendWith ((vs.drop p.list.data.length).map bld)
      = ⟨updateProducts upd p.list.data vs ++
          ((vs.drop p.list.data.length).map bld).take
            (N - p.list.data.length)⟩ := by
    have hdata := BoundedVec.extendWith_data
      (⟨updateProducts upd p.list.data vs⟩ : BoundedVec P N)
      ((vs.drop p.list.data.length).map bld)
    rw [show (⟨updateProducts upd p.list.data vs⟩ :
      BoundedVec P N).data.length = p.list.data.length from hlen] at hdata
    exact congrArg BoundedVec.mk hdata
  rw [e1]
  simp only [Prod.mk.injEq, BoundedProduct.mk.injEq, Stats.mk.injEq,
    BoundedVec.len, List.length_append, List.length_take, List.length_map,
    List.length_drop, hlen, and_true, true_and]
  omega

theorem ListProduct.buildFrom_eq (bld : V → P) (vs : List V) :
    ListProduct.buildFrom bld vs
      = { list := vs.map bld, mounted := vs.length } := by
  simp [ListProduct.buildFrom, ListProduct.extendWith]

theorem BoundedProduct.boundedBuildFrom_eq {N : Nat} (bld : V → P) (vs : List V) :
    (BoundedProduct.buildFrom bld vs : BoundedProduct P N)
      = { list := ⟨(vs.map bld).take N⟩, mounted := min N vs.length } := by
  have hdata := BoundedVec.extendWith_data
    (BoundedVec.new (P := P) (N := N)) (vs.map bld)
  simp [BoundedVec.new] at hdata
  simp only [BoundedProduct.buildFrom, BoundedProduct.extendWith]
  have e1 : (BoundedVec.new (P := P) (N := N)).extendWith (vs.map bld)
      = ⟨(vs.map bld).take N⟩ := congrArg BoundedVec.mk hdata
  rw [e1]
  simp [BoundedVec.len]

end ListFacts

section VerFacts

theorem Ver.mutate_ver {T : Type} (ms : List ((T → T) × Nat)) (v : Ver T)
    (hv : v.ver < W32) :
    (Ver.mutate ms v).ver = (v.ver + ms.length) % W32 := by
  induction ms generalizing v with
  | nil =>
    simp [Ver.mutate, Nat.mod_eq_of_lt hv]
  | cons m ms ih =>
    have hstep : (Ver.derefMut m.1 m.2 v).ver < W32 := by
      simp [Ver.derefMut]
      exact Nat.mod_lt _ (by norm_num [W32])
    have hrec : Ver.mutate (m :: ms) v
        = Ver.mutate ms (Ver.derefMut m.1 m.2 v) := rfl
    rw [hrec, ih _ hstep]
    simp only [Ver.derefMut, List.length_cons, Nat.mod_add_mod]
    congr 1
    omega

theorem Ver.mutate_replicate_full (k : Nat) (v : Ver Nat)
    (hv : v.ver < W32) :
    Ver.mutate (List.replicate k ((id : Nat → Nat), 0)) v
      = ⟨v.val, (v.ver + k) % W32, if k = 0 then v.noise else 0⟩ := by
  induction k generalizing v with
  | zero =>
    show v = _
    rw [Nat.add_zero, Nat.mod_eq_of_lt hv]
    simp
  | succ k ih =>
    have hstep : (Ver.derefMut id 0 v).ver < W32 := by
      simp [Ver.derefMut]
      exact Nat.mod_lt _ (by norm_num [W32])
    have hrec : Ver.mutate (List.replicate (k + 1) ((id : Nat → Nat), 0)) v
        = Ver.mutate (List.replicate k ((id : Nat → Nat), 0))
            (Ver.derefMut id 0 v) := by
      rw [List.replicate_succ]
      rfl
    rw [hrec, ih _ hstep]
    simp [Ver.derefMut, Nat.mod_add_mod]
    congr 1
    omega

end VerFacts

section Claims

variable {V : Type} {P : Type}

/-- C1. List length convergence: a list product built from a sequence of
length `m` and then updated with a sequence of length `n` (same item view
type) has mounted count `n` after the update; the update performs exactly
`max(0, n-m)` builds and `max(0, m-n)` unmounts (both for the
`ListProduct` variant of list/unbounded.rs and for the `List::update`
variant of list.rs; `Nat` subtraction is truncated, so `n - m` is
`max(0, n-m)`); for the bounded variant of capacity `N` the mounted count
after the update is `min(n, N)`. -/
theorem c1_list_length_convergence (bld : V → P) (upd : V → P → P)
    (N : Nat) (vs1 vs2 : List V) :
    ((ListProduct.buildFrom bld vs1).update bld upd vs2).1.mounted
        = vs2.length
  ∧ ((ListProduct.buildFrom bld vs1).update bld upd vs2).2.builds
        = vs2.length - vs1.length
  ∧ ((ListProduct.buildFrom bld vs1).update bld upd vs2).2.unmounts
        = vs1.length - vs2.length
  ∧ (listVecUpdate bld upd (ListProduct.buildFrom bld vs1) vs2).1.mounted
        = vs2.length
  ∧ (listVecUpdate bld upd (ListProduct.buildFrom bld vs1) vs2).2.builds
        = vs2.length - vs1.length
  ∧ (listVecUpdate bld upd (ListProduct.buildFrom bld vs1) vs2).2.unmounts
        = vs1.length - vs2.length
  ∧ ((BoundedProduct.buildFrom bld vs1 : BoundedProduct P N).update bld upd
        vs2).1.mounted = min vs2.length N := by
  have hb := ListProduct.buildFrom_eq bld vs1
  have hib : (ListProduct.buildFrom bld vs1).mounted
      = (ListProduct.buildFrom bld vs1).list.length := by
    rw [hb]; simp
  have hv := listVecUpdate_eq bld upd (ListProduct.buildFrom bld vs1) vs2
    (le_of_eq hib)
  have hbb := BoundedProduct.boundedBuildFrom_eq (N := N) bld vs1
  have main : ((ListProduct.buildFrom bld vs1).update bld upd vs2).1.mounted
        = vs2.length
      ∧ ((ListProduct.buildFrom bld vs1).update bld upd vs2).2.builds
        = vs2.length - vs1.length
      ∧ ((ListProduct.buildFrom bld vs1).update bld upd vs2).2.unmounts
        = vs1.length - vs2.length := by
    by_cases h : vs2.length < vs1.length
    · rw [ListProduct.update_shrink bld upd _ vs2 (le_of_eq hib)
        (by rw [hb]; simpa using h)]
      rw [hb]
      simp
      omega
    · rw [ListProduct.update_big bld upd _ vs2 (le_of_eq hib)
        (by rw [hb]; simp; omega)]
      rw [hb]
      simp
      omega
  refine ⟨main.1, main.2.1, main.2.2, ?_, ?_, ?_, ?_⟩
  · rw [hv]; exact main.1
  · rw [hv]; exact main.2.1
  · rw [hv]; exact main.2.2
  · by_cases h : vs2.length < min vs1.length N
    · rw [BoundedProduct.boundedUpdate_shrink bld upd _ vs2
        (by rw [hbb]; simp [BoundedVec.len]; try omega)
        (by rw [hbb]; simp; try omega)]
      simp
      omega
    · rw [BoundedProduct.boundedUpdate_big bld upd _ vs2
        (by rw [hbb]; simp [BoundedVec.len]; try omega)
        (by rw [hbb]; simp [BoundedVec.len]; try omega)
        (by rw [hbb]; simp [BoundedVec.len]; try omega)]

/-- C2. Surplus retention on shrink: an update of a list product with a
shorter sequence (`n < mounted`) unmounts the item products from position
`n` onward, sets `mounted = n`, and retains the surplus products: the
storage length is unchanged and the entries from position `n` on are
exactly the previous ones. A later regrowing update reuses those retained
products — it calls `update` on them with the new view before re-attaching
them (position `i` then holds `upd v q` for the retained `q`, counted by
`remounts`) — and builds fresh products only for positions beyond the
stored sequence. -/
theorem c2_surplus_retention (bld : V → P) (upd : V → P → P)
    (p : ListProduct P) (vs2 vs3 : List V)
    (hinv : p.mounted ≤ p.list.length)
    (hshrink : vs2.length < p.mounted)
    (hregrow : vs2.length < vs3.length) :
    ((p.update bld upd vs2).1.mounted = vs2.length)
  ∧ ((p.update bld upd vs2).2.unmounts = p.mounted - vs2.length)
  ∧ ((p.update bld upd vs2).2.builds = 0)
  ∧ ((p.update bld upd vs2).1.list.length = p.list.length)
  ∧ (∀ i, vs2.length ≤ i → (p.update bld upd vs2).1.list[i]? = p.list[i]?)
  ∧ (((p.update bld upd vs2).1.update bld upd vs3).2.builds
        = vs3.length - p.list.length)
  ∧ (((p.update bld upd vs2).1.update bld upd vs3).2.remounts
        = min vs3.length p.list.length - vs2.length)
  ∧ (∀ i v q, vs3[i]? = some v →
        (p.update bld upd vs2).1.list[i]? = some q → i < p.list.length →
        ((p.update bld upd vs2).1.update bld upd vs3).1.list[i]?
          = some (upd v q)) := by
  have hlen1 := length_updateProducts upd p.list vs2
  rw [ListProduct.update_shrink bld upd p vs2 hinv hshrink]
  by_cases h3 : vs3.length < p.list.length
  · rw [ListProduct.update_mid bld upd
      { list := updateProducts upd p.list vs2, mounted := vs2.length } vs3
      (by exact le_of_lt hregrow)
      (show vs3.length < (updateProducts upd p.list vs2).length by omega)]
    refine ⟨rfl, rfl, rfl, hlen1,
      fun i hi => updateProducts_getElem_ge upd p.list vs2 i hi, ?_, ?_, ?_⟩
    · show 0 = vs3.length - p.list.length
      omega
    · show vs3.length - vs2.length = min vs3.length p.list.length - vs2.length
      omega
    · intro i v q hv hq _
      exact updateProducts_getElem upd _ vs3 i v q hv hq
  · rw [ListProduct.update_big bld upd
      { list := updateProducts upd p.list vs2, mounted := vs2.length } vs3
      (show vs2.length ≤ (updateProducts upd p.list vs2).length by omega)
      (show (updateProducts upd p.list vs2).length ≤ vs3.length by omega)]
    refine ⟨rfl, rfl, rfl, hlen1,
      fun i hi => updateProducts_getElem_ge upd p.list vs2 i hi, ?_, ?_, ?_⟩
    · show vs3.length - (updateProducts upd p.list vs2).length
        = vs3.length - p.list.length
      omega
    · show (updateProducts upd p.list vs2).length - vs2.length
        = min vs3.length p.list.length - vs2.length
      omega
    · intro i v q hv hq hilen
      have hlen2 := length_updateProducts upd
        (updateProducts upd p.list vs2) vs3
      show ((updateProducts upd (updateProducts upd p.list vs2) vs3) ++
        ((vs3.drop (updateProducts upd p.list vs2).length).map bld))[i]?
          = some (upd v q)
      rw [List.getElem?_append, if_pos (by omega)]
      exact updateProducts_getElem upd _ vs3 i v q hv hq

/-- Witness for C2: the spec's end-to-end scenario — build from
`["a","b","c"]`, shrink to `["a","x"]` (position 2 unmounted, storage still
3 entries, entry 2 retained as `"c"`), regrow with `["a","x","y","z"]`
(position 2 reused and updated to `"y"`, one fresh build for `"z"`). -/
theorem c2_surplus_retention_witness :
    (3 ≤ 3 ∧ 2 < 3 ∧ 2 < 4)
  ∧ (((ListProduct.buildFrom (id : String → String) ["a", "b", "c"]).update
        id (fun v _ => v) ["a", "x"]).1.mounted = 2
  ∧ ((ListProduct.buildFrom (id : String → String) ["a", "b", "c"]).update
        id (fun v _ => v) ["a", "x"]).2.unmounts = 3 - 2
  ∧ ((ListProduct.buildFrom (id : String → String) ["a", "b", "c"]).update
        id (fun v _ => v) ["a", "x"]).2.builds = 0
  ∧ ((ListProduct.buildFrom (id : String → String) ["a", "b", "c"]).update
        id (fun v _ => v) ["a", "x"]).1.list.length
        = (ListProduct.buildFrom (id : String → String)
            ["a", "b", "c"]).list.length
  ∧ (∀ i, ([ "a", "x" ] : List String).length ≤ i →
      ((ListProduct.buildFrom (id : String → String) ["a", "b", "c"]).update
        id (fun v _ => v) ["a", "x"]).1.list[i]?
        = (ListProduct.buildFrom (id : String → String)
            ["a", "b", "c"]).list[i]?)
  ∧ (((ListProduct.buildFrom (id : String → String) ["a", "b", "c"]).update
        id (fun v _ => v) ["a", "x"]).1.update id (fun v _ => v)
        ["a", "x", "y", "z"]).2.builds
        = (["a", "x", "y", "z"] : List String).length
          - (ListProduct.buildFrom (id : String → String)
              ["a", "b", "c"]).list.length
  ∧ (((ListProduct.buildFrom (id : String → String) ["a", "b", "c"]).update
        id (fun v _ => v) ["a", "x"]).1.update id (fun v _ => v)
        ["a", "x", "y", "z"]).2.remounts
        = min (["a", "x", "y", "z"] : List String).length
            (ListProduct.buildFrom (id : String → String)
              ["a", "b", "c"]).list.length - 2
  ∧ (∀ i v q, (["a", "x", "y", "z"] : List String)[i]? = some v →
      ((ListProduct.buildFrom (id : String → String) ["a", "b", "c"]).update
        id (fun v _ => v) ["a", "x"]).1.list[i]? = some q →
      i < (ListProduct.buildFrom (id : String → String)
            ["a", "b", "c"]).list.length →
      (((ListProduct.buildFrom (id : String → String)
          ["a", "b", "c"]).update id (fun v _ => v) ["a", "x"]).1.update
          id (fun v _ => v) ["a", "x", "y", "z"]).1.list[i]?
        = some ((fun v _ => v) v q))) := by
  refine ⟨by omega, ?_⟩
  exact c2_surplus_retention (id : String → String) (fun v _ => v)
    (ListProduct.buildFrom id ["a", "b", "c"]) ["a", "x"]
    ["a", "x", "y", "z"] (by decide) (by decide) (by decide)

/-- C3. Bounded capacity: pushing `N + k` items (`k > 0`) into a fresh
bounded list of capacity `N` ends with `len() = N`, the extra `k` items
silently discarded; a push beyond capacity is a no-op (it does not write,
does not increment `len`, returns `false` and — being a total function on
the modelled state — cannot panic), so `len ≤ N` holds after every sequence
of pushes. -/
theorem c3_bounded_capacity {T : Type} (N k : Nat) (items : List T)
    (hk : 0 < k) (hlen : items.length = N + k) :
    ((BoundedVec.new (P := T) (N := N)).extendWith items).len = N
  ∧ (∀ (v : BoundedVec T N) (it : T), N ≤ v.len → v.push it = (v, false))
  ∧ (∀ (v : BoundedVec T N) (more : List T), v.len ≤ N →
      (v.extendWith more).len ≤ N) := by
  refine ⟨?_, ?_, ?_⟩
  · rw [BoundedVec.len_extendWith _ _ (by simp [BoundedVec.new])]
    simp [BoundedVec.new]
    omega
  · intro v it h
    simp only [BoundedVec.len] at h
    simp [BoundedVec.push, h]
  · intro v more hv
    simp only [BoundedVec.len] at hv
    rw [BoundedVec.len_extendWith _ _ hv]
    omega

/-- Witness for C3 at `N = 2`, `k = 1`, items `[10, 20, 30]`. -/
theorem c3_bounded_capacity_witness :
    (0 < 1 ∧ ([10, 20, 30] : List Nat).length = 2 + 1)
  ∧ (((BoundedVec.new (P := Nat) (N := 2)).extendWith [10, 20, 30]).len = 2
  ∧ (∀ (v : BoundedVec Nat 2) (it : Nat), 2 ≤ v.len → v.push it = (v, false))
  ∧ (∀ (v : BoundedVec Nat 2) (more : List Nat), v.len ≤ 2 →
      (v.extendWith more).len ≤ 2)) :=
  ⟨⟨by decide, by decide⟩,
    c3_bounded_capacity 2 1 [10, 20, 30] (by decide) (by decide)⟩

/-- C4. Mounted-count invariant: `mounted ≤ length` of the stored product
sequence holds after build and is preserved by every update (unmount,
re-mount and extend paths alike) for the unbounded variant, the
`Vec`-backed variant and the bounded variant; the bounded variant
additionally preserves `len ≤ N`, and the slice its deref hands out is
exactly the `len` initialized elements. -/
theorem c4_mounted_invariant (bld : V → P) (upd : V → P → P) {N : Nat}
    (vs0 vs ws : List V) (p : ListProduct P) (q : BoundedProduct P N)
    (hp : p.mounted ≤ p.list.length)
    (hq1 : q.mounted ≤ q.list.len) (hq2 : q.list.len ≤ N) :
    (ListProduct.buildFrom bld vs0).mounted
        = (ListProduct.buildFrom bld vs0).list.length
  ∧ ((p.update bld upd vs).1.mounted ≤ (p.update bld upd vs).1.list.length)
  ∧ ((listVecUpdate bld upd p vs).1.mounted
        ≤ (listVecUpdate bld upd p vs).1.list.length)
  ∧ (BoundedProduct.buildFrom bld vs0 : BoundedProduct P N).mounted
        = (BoundedProduct.buildFrom bld vs0 : BoundedProduct P N).list.len
  ∧ (BoundedProduct.buildFrom bld vs0 : BoundedProduct P N).list.len ≤ N
  ∧ ((q.update bld upd ws).1.mounted ≤ (q.update bld upd ws).1.list.len)
  ∧ ((q.update bld upd ws).1.list.len ≤ N)
  ∧ (∀ v : BoundedVec P N, v.deref = v.data ∧ v.deref.length = v.len) := by
  have hlenU := length_updateProducts upd p.list vs
  have hlenQ := length_updateProducts upd q.list.data ws
  have hU : (p.update bld upd vs).1.mounted
      ≤ (p.update bld upd vs).1.list.length := by
    by_cases hs : vs.length < p.mounted
    · rw [ListProduct.update_shrink bld upd p vs hp hs]
      show vs.length ≤ (updateProducts upd p.list vs).length
      omega
    · by_cases h2 : p.list.length ≤ vs.length
      · rw [ListProduct.update_big bld upd p vs hp h2]
        show vs.length ≤ ((updateProducts upd p.list vs) ++
          (vs.drop p.list.length).map bld).length
        simp
        omega
      · rw [ListProduct.update_mid bld upd p vs (by omega) (by omega)]
        show vs.length ≤ (updateProducts upd p.list vs).length
        omega
  have hQ : (q.update bld upd ws).1.mounted ≤ (q.update bld upd ws).1.list.len
      ∧ (q.update bld upd ws).1.list.len ≤ N := by
    simp only [BoundedVec.len] at hq1 hq2
    by_cases hs : ws.length < q.mounted
    · rw [BoundedProduct.boundedUpdate_shrink bld upd q ws
        (by simpa [BoundedVec.len] using hq1) (by exact hs)]
      constructor
      · show ws.length ≤ (⟨updateProducts upd q.list.data ws⟩ :
          BoundedVec P N).len
        simp only [BoundedVec.len]
        omega
      · show (⟨updateProducts upd q.list.data ws⟩ : BoundedVec P N).len ≤ N
        simp only [BoundedVec.len]
        omega
    · by_cases h2 : q.list.data.length ≤ ws.length
      · rw [BoundedProduct.boundedUpdate_big bld upd q ws
          (by simpa [BoundedVec.len] using hq1)
          (by simpa [BoundedVec.len] using hq2)
          (by simpa [BoundedVec.len] using h2)]
        constructor
        · show min ws.length N ≤ (⟨updateProducts upd q.list.data ws ++
            ((ws.drop q.list.len).map bld).take (N - q.list.len)⟩ :
              BoundedVec P N).len
          simp [BoundedVec.len]
          omega
        · show (⟨updateProducts upd q.list.data ws ++
            ((ws.drop q.list.len).map bld).take (N - q.list.len)⟩ :
              BoundedVec P N).len ≤ N
          simp [BoundedVec.len]
          omega
      · rw [BoundedProduct.boundedUpdate_mid bld upd q ws (by omega)
          (by simp only [BoundedVec.len]; omega)]
        constructor
        · show ws.length ≤ (⟨updateProducts upd q.list.data ws⟩ :
            BoundedVec P N).len
          simp only [BoundedVec.len]
          omega
        · show (⟨updateProducts upd q.list.data ws⟩ : BoundedVec P N).len ≤ N
          simp only [BoundedVec.len]
          omega
  refine ⟨?_, hU, ?_, ?_, ?_, hQ.1, hQ.2, fun v => ⟨rfl, rfl⟩⟩
  · rw [ListProduct.buildFrom_eq]
    simp
  · rw [listVecUpdate_eq bld upd p vs hp]
    exact hU
  · rw [BoundedProduct.boundedBuildFrom_eq]
    simp [BoundedVec.len]
  · rw [BoundedProduct.boundedBuildFrom_eq]
    simp [BoundedVec.len]

/-- Witness for C4 at a concrete mixed state: an unbounded product with a
retained surplus entry (`mounted = 1`, storage 2, capacity 2 for the
bounded twin) updated with three views keeps `mounted` within the storage
length. -/
theorem c4_mounted_invariant_witness :
    (1 ≤ 2 ∧ 2 ≤ 2)
  ∧ (((⟨[10, 20], 1⟩ : ListProduct Nat).update id (fun v _ => v)
        [7, 8, 9]).1.mounted
      ≤ ((⟨[10, 20], 1⟩ : ListProduct Nat).update id (fun v _ => v)
        [7, 8, 9]).1.list.length) :=
  ⟨⟨by decide, by decide⟩,
    (c4_mounted_invariant (id : Nat → Nat) (fun v _ => v) [5] [7, 8, 9]
      [7, 8, 9] (⟨[10, 20], 1⟩ : ListProduct Nat)
      (⟨⟨[10, 20]⟩, 1⟩ : BoundedProduct Nat 2)
      (by decide) (by decide) (by decide)).2.1⟩

/-- C5. Reentrancy guard: the runtime update takes the singleton out of its
thread-local slot before invoking the render/update closure and restores
it afterward; a reentrant update attempt made while the slot is empty is
rejected — the in-src `fn update` skips silently, and the `lock_update`
path (modelled from the spec) flags the "cyclical update detected" debug
assertion — and never invokes the render closure a second time (one outer
update with a nested reentrant attempt increments `renders` exactly once);
after the outer update completes the slot again holds the runtime, so a
subsequent normal update succeeds (it applies its mutator and renders). -/
theorem c5_reentrancy_guard {S : Type} (c : Rt S → Rt S)
    (m m2 : Rt S → Rt S × Then) (g : S → S) (s : Rt S)
    (hFull : s.slotFull = true) (hAlive : s.alive = true) :
    updateRt c { s with slotFull := false } = { s with slotFull := false }
  ∧ lockUpdate m { s with slotFull := false }
      = { s with slotFull := false, cyclical := s.cyclical + 1 }
  ∧ lockUpdate (fun rt => (lockUpdate m2 rt, Then.Render)) s
      = { s with renders := s.renders + 1, cyclical := s.cyclical + 1 }
  ∧ Signal.update (fun st => (g st, Then.Render))
      (lockUpdate (fun rt => (lockUpdate m2 rt, Then.Render)) s)
      = { s with
          state := g s.state
          renders := s.renders + 2
          cyclical := s.cyclical + 1 } := by
  refine ⟨?_, ?_, ?_, ?_⟩
  · simp [updateRt]
  · simp [lockUpdate]
  · simp [lockUpdate, hFull]
  · simp [Signal.update, lockUpdate, liftMut, hFull, hAlive]

/-- Witness for C5 at a concrete full-slot, alive runtime state. -/
theorem c5_reentrancy_guard_witness :
    ((⟨true, 0, true, 0, 0⟩ : Rt Nat).slotFull = true
      ∧ (⟨true, 0, true, 0, 0⟩ : Rt Nat).alive = true)
  ∧ lockUpdate (fun rt => (lockUpdate (fun rt2 => (rt2, Then.Stop)) rt,
        Then.Render)) (⟨true, 0, true, 0, 0⟩ : Rt Nat)
      = { (⟨true, 0, true, 0, 0⟩ : Rt Nat) with
          renders := 0 + 1
          cyclical := 0 + 1 } :=
  ⟨⟨by decide, by decide⟩,
    (c5_reentrancy_guard id (fun rt => (rt, Then.Stop))
      (fun rt => (rt, Then.Stop)) Nat.succ (⟨true, 0, true, 0, 0⟩ : Rt Nat)
      (by decide) (by decide)).2.2.1⟩

/-- C6. Signal liveness: `update`, `set` and `update_silent` on a `Signal`
whose owning hook has been dropped (the weak `drop_flag` has
`strong_count != 1`, here `alive = false`) are no-ops for every mutator —
the state is untouched and no re-render is triggered; while the owning hook
is alive (and the runtime slot holds the runtime), `update` applies the
mutator to the state and triggers a re-render iff the mutator's verdict is
`Render`, and `set` replaces the state and always renders. -/
theorem c6_signal_liveness {S : Type} (f : S → S × Then) (f2 : S → S)
    (val : S) (a d : Rt S) (hAlive : a.alive = true)
    (hSlot : a.slotFull = true) (hDead : d.alive = false) :
    Signal.update f d = d
  ∧ Signal.updateSilent f2 d = d
  ∧ Signal.set val d = d
  ∧ Signal.update f a
      = { a with
          state := (f a.state).1
          renders := a.renders
            + (if (f a.state).2 = Then.Render then 1 else 0) }
  ∧ Signal.set val a = { a with state := val, renders := a.renders + 1 } := by
  refine ⟨?_, ?_, ?_, ?_, ?_⟩
  · simp [Signal.update, hDead]
  · simp [Signal.updateSilent, hDead]
  · simp [Signal.set, Signal.update, hDead]
  · by_cases hr : (f a.state).2 = Then.Render <;>
      simp [Signal.update, hAlive, lockUpdate, hSlot, liftMut, hr]
  · simp [Signal.set, Signal.update, hAlive, lockUpdate, hSlot, liftMut]

/-- Witness for C6: a dropped-hook signal state and a live one. -/
theorem c6_signal_liveness_witness :
    ((⟨true, 10, true, 0, 0⟩ : Rt Nat).alive = true
      ∧ (⟨false, 10, true, 0, 0⟩ : Rt Nat).alive = false)
  ∧ Signal.update (fun st => (st + 1, Then.Render))
        (⟨false, 10, true, 0, 0⟩ : Rt Nat)
      = (⟨false, 10, true, 0, 0⟩ : Rt Nat)
  ∧ Signal.update (fun st => (st + 1, Then.Render))
        (⟨true, 10, true, 0, 0⟩ : Rt Nat)
      = { (⟨true, 10, true, 0, 0⟩ : Rt Nat) with
          state := ((fun (st : Nat) => (st + 1, Then.Render)) 10).1
          renders := 0 + (if ((fun (st : Nat) =>
            (st + 1, Then.Render)) 10).2 = Then.Render then 1 else 0) } :=
  ⟨⟨by decide, by decide⟩,
    (c6_signal_liveness (fun st => (st + 1, Then.Render)) id 0
      (⟨true, 10, true, 0, 0⟩ : Rt Nat) (⟨false, 10, true, 0, 0⟩ : Rt Nat)
      (by decide) (by decide) (by decide)).1,
    (c6_signal_liveness (fun st => (st + 1, Then.Render)) id 0
      (⟨true, 10, true, 0, 0⟩ : Rt Nat) (⟨false, 10, true, 0, 0⟩ : Rt Nat)
      (by decide) (by decide) (by decide)).2.2.2.1⟩

/-- C7. Branch transition: a `Branch2` update whose new view carries the
same variant as the product delegates to the inner view's update and makes
no `replace_with` host call; an update with a different variant builds a
new product from the new view, swaps it into place and makes exactly one
`replace_with` call — so across renders A, B, A exactly one replacement
happens per variant change and none between same-variant renders; the
`Option`-as-view product behaves the same with `None` as the empty arm. -/
theorem c7_branch_transition {VA VB PA PB : Type}
    (bA : VA → PA) (uA : VA → PA → PA) (bB : VB → PB) (uB : VB → PB → PB)
    (bld : V → P) (upd : V → P → P) (va va2 : VA) (vb : VB)
    (pa : PA) (pb : PB) (vv : V) (pp : P) (e : EmptyNode) :
    branch2Update bA uA bB uB (.A va) (.A pa) = (.A (uA va pa), 0)
  ∧ branch2Update bA uA bB uB (.B vb) (.B pb) = (.B (uB vb pb), 0)
  ∧ branch2Update bA uA bB uB (.A va) (.B pb) = (.A (bA va), 1)
  ∧ branch2Update bA uA bB uB (.B vb) (.A pa) = (.B (bB vb), 1)
  ∧ (branch2Update bA uA bB uB (.B vb) (branch2Build bA bB (.A va))).2 = 1
  ∧ (branch2Update bA uA bB uB (.A va2)
      (branch2Update bA uA bB uB (.B vb)
        (branch2Build bA bB (.A va))).1).2 = 1
  ∧ (branch2Update bA uA bB uB (.A va2) (branch2Build bA bB (.A va))).2 = 0
  ∧ optionUpdate bld upd (some vv) (.A pp) = (.A (upd vv pp), 0)
  ∧ optionUpdate bld upd none (.B e) = (.B e, 0)
  ∧ optionUpdate bld upd none (.A pp) = (.B (), 1)
  ∧ optionUpdate bld upd (some vv) (.B e) = (.A (bld vv), 1) :=
  ⟨rfl, rfl, rfl, rfl, rfl, rfl, rfl, rfl, rfl, rfl, rfl⟩

/-- C8 counterexample: `impl_diff!` (diff.rs, line 230) also instantiates
`f32` and `f64`, and there the claim fails at NaN: diffing the same NaN
value twice in a row returns `true` both times, because the first call
replaces the memo with NaN and IEEE `NaN != NaN` still holds on the second
call — contradicting "diffing the same value twice in a row returns false
the second time". -/
theorem c8_diff_memo_postcondition_counterexample :
    floatDiff Fl.nan Fl.nan = (true, Fl.nan)
  ∧ (floatDiff Fl.nan ((floatDiff Fl.nan Fl.nan).2)).1 = true := by
  decide

/-- C8 (amended). Diff memo postcondition under each type's own
comparison: the primitive `Diff` at the types whose `!=` is the negation
of a decidable equality (`bool`, the integer types) returns `true` iff the
new value differs from the memo, the string-like `Diff` returns `true` iff
the contents differ, in either case the memo afterwards equals the new
value (replaced on change, already equal otherwise) and diffing the same
value twice in a row returns `false` the second time; the `f32`/`f64`
instantiations return `true` iff the operands are IEEE-unequal — replacing
the memo with the new value on change and leaving it as-is otherwise — so
there a NaN is reported as changed on every diff, including the second
diff of the identical value. -/
theorem c8_diff_memo_postcondition {α : Type} [DecidableEq α] (a m : α)
    (s t : String) (x y : Fl) :
    ((primDiff a m).1 = true ↔ a ≠ m)
  ∧ (primDiff a m).2 = a
  ∧ (primDiff a ((primDiff a m).2)).1 = false
  ∧ ((strDiff s t).1 = true ↔ s ≠ t)
  ∧ (strDiff s t).2 = s
  ∧ (strDiff s ((strDiff s t).2)).1 = false
  ∧ ((floatDiff x y).1 = true ↔ Fl.ieeeEq x y = false)
  ∧ (Fl.ieeeEq x y = false → (floatDiff x y).2 = x)
  ∧ (Fl.ieeeEq x y = true → (floatDiff x y).2 = y)
  ∧ (floatDiff Fl.nan ((floatDiff Fl.nan y).2)).1 = true := by
  have hp2 : (primDiff a m).2 = a := by
    by_cases h : a = m <;> simp [primDiff, h]
  have hs2 : (strDiff s t).2 = s := by
    by_cases h : s = t <;> simp [strDiff, h]
  refine ⟨?_, hp2, ?_, ?_, hs2, ?_, ?_, ?_, ?_, ?_⟩
  · by_cases h : a = m <;> simp [primDiff, h]
  · rw [hp2]; simp [primDiff]
  · by_cases h : s = t <;> simp [strDiff, h]
  · rw [hs2]; simp [strDiff]
  · by_cases h : Fl.ieeeEq x y <;> simp [floatDiff, h]
  · intro h; simp [floatDiff, h]
  · intro h; simp [floatDiff, h]
  · cases y <;> simp [floatDiff, Fl.ieeeEq]

/-- Witness for C8 (amended) at concrete inputs: `3` against memo `4`,
`"ab"` against memo `"cd"`, and the float `3` against memo `4`. -/
theorem c8_diff_memo_postcondition_witness :
    (primDiff (3 : Nat) 4).2 = 3
  ∧ (strDiff "ab" "cd").2 = "ab"
  ∧ (floatDiff (Fl.num 3) (Fl.num 4)).2 = Fl.num 3 :=
  ⟨(c8_diff_memo_postcondition (3 : Nat) 4 "ab" "cd"
      (Fl.num 3) (Fl.num 4)).2.1,
   (c8_diff_memo_postcondition (3 : Nat) 4 "ab" "cd"
      (Fl.num 3) (Fl.num 4)).2.2.2.2.1,
   (c8_diff_memo_postcondition (3 : Nat) 4 "ab" "cd"
      (Fl.num 3) (Fl.num 4)).2.2.2.2.2.2.2.1 (by decide)⟩

/-- C9 counterexample: the claim "after `k` mutable accesses the memo
differs from any memo captured before those accesses, for all k ≥ 1" is
false at `k = 2^32`: the version counter is a 32-bit word on the wasm32
target, so after exactly `2^32` mutable accesses (value and noise word
unchanged) the tag wraps around and the memo equals the one captured
before. -/
theorem c9_version_diff_monotonicity_counterexample :
    1 ≤ (List.replicate W32 ((id : Nat → Nat), 0)).length
  ∧ (Ver.mutate (List.replicate W32 ((id : Nat → Nat), 0))
        (Ver.make (0 : Nat) 0)).intoMemo
      = (Ver.make (0 : Nat) 0).intoMemo := by
  constructor
  · rw [List.length_replicate]
    norm_num [W32]
  · rw [Ver.mutate_replicate_full W32 (Ver.make (0 : Nat) 0)
      (by norm_num [Ver.make, W32])]
    norm_num [Ver.make, Ver.intoMemo, W32]

/-- C9 (amended). Version-diff monotonicity up to the counter width: every
mutable access to a `Ver<T>` (`deref_mut`, `write_str`) increments its
version counter (wrapping at the 32-bit usize width of the wasm32 target),
and for all `k` with `1 ≤ k < 2^32`, after `k` mutable accesses the memo
produced by diffing (the version tag shifted left 32 bits combined with
the value's noise word) differs from the memo captured before those
accesses — so `diff` reports a change after any such mutation even when
the stored value compares equal (the memo never consults the value). -/
theorem c9_version_diff_monotonicity_amended {T : Type} (v : Ver T)
    (ms : List ((T → T) × Nat)) (f : T → T) (n : Nat) (s : String)
    (w : Ver String) (hv : v.ver < W32)
    (h1 : 1 ≤ ms.length) (h2 : ms.length < W32) :
    (Ver.derefMut f n v).ver = (v.ver + 1) % W32
  ∧ (Ver.writeStr s n w).ver = (w.ver + 1) % W32
  ∧ (Ver.mutate ms v).intoMemo ≠ v.intoMemo
  ∧ (Ver.mutate ms v).diff v.intoMemo
      = (true, (Ver.mutate ms v).intoMemo) := by
  have hm := Ver.mutate_ver ms v hv
  have hne : (Ver.mutate ms v).intoMemo ≠ v.intoMemo := by
    simp only [Ver.intoMemo, hm]
    simp only [W32] at *
    omega
  refine ⟨rfl, rfl, hne, ?_⟩
  simp only [Ver.diff]
  rw [if_pos (Ne.symm hne)]

/-- Witness for C9 (amended): one mutable access on a version-0 value. -/
theorem c9_version_diff_monotonicity_amended_witness :
    ((⟨0, 5, 7⟩ : Ver Nat).ver < W32
      ∧ 1 ≤ ([((id : Nat → Nat), 3)]).length
      ∧ ([((id : Nat → Nat), 3)]).length < W32)
  ∧ (Ver.mutate [((id : Nat → Nat), 3)] (⟨0, 5, 7⟩ : Ver Nat)).intoMemo
      ≠ (⟨0, 5, 7⟩ : Ver Nat).intoMemo :=
  ⟨⟨by norm_num [W32], by norm_num, by norm_num [W32]⟩,
    (c9_version_diff_monotonicity_amended (⟨0, 5, 7⟩ : Ver Nat)
      [((id : Nat → Nat), 3)] id 3 "" (⟨"", 0, 0⟩ : Ver String)
      (by norm_num [W32]) (by norm_num) (by norm_num [W32])).2.2.1⟩

/-- C10. Silent update never renders: for a signal whose owning hook is
alive, `update_silent` applies the mutator to the state but never triggers
a runtime re-render and never touches the runtime slot, whatever the
mutator does — the mounted product tree is untouched. -/
theorem c10_silent_update_never_renders {S : Type} (f : S → S) (a : Rt S)
    (hAlive : a.alive = true) :
    Signal.updateSilent f a = { a with state := f a.state }
  ∧ (Signal.updateSilent f a).renders = a.renders
  ∧ (Signal.updateSilent f a).slotFull = a.slotFull := by
  refine ⟨?_, ?_, ?_⟩ <;> simp [Signal.updateSilent, hAlive]

/-- Witness for C10 at a concrete live state. -/
theorem c10_silent_update_never_renders_witness :
    ((⟨true, 10, true, 0, 0⟩ : Rt Nat).alive = true)
  ∧ Signal.updateSilent (fun st => st + 32) (⟨true, 10, true, 0, 0⟩ : Rt Nat)
      = { (⟨true, 10, true, 0, 0⟩ : Rt Nat) with
          state := (fun (st : Nat) => st + 32) 10 } :=
  ⟨by decide,
    (c10_silent_update_never_renders (fun st => st + 32)
      (⟨true, 10, true, 0, 0⟩ : Rt Nat) (by decide)).1⟩

end Claims

end Kobold
